import Mathlib

/-!
A shallow embedding of `biliverec-hooks.go` (hguandl/biliverec-hooks).

The Go program is embedded function by function.  Side effects (HTTP response
writes, log lines, outbound notifications, channel sends, external commands,
file opens) are recorded as an explicit trace of `Effect`s in program order;
everything the program reads from outside (the decoded request body, the file
system, the process table, the outcome of external calls) is an explicit
argument.

Go strings are immutable byte sequences, so a string is a list of bytes, each
byte a natural number (below 256 for a real string; nothing below depends on
that bound).
-/

namespace BiliverecHooks

/-! ## Strings -/

/-- A Go `string`: its bytes, in order. -/
abbrev GoString := List Nat

/-- The bytes (UTF-8) of a string literal of the source. -/
def str (s : String) : GoString := (String.toUTF8 s).data.toList.map UInt8.toNat

/-- Go `fmt.Sprint(i)` and the verb `%v` for an `int`: signed decimal. -/
def sprintInt (i : Int) : GoString := str (toString i)

/-- Go `strings.LastIndexByte(s, c)`: the index of the last occurrence of the
byte `c` in `s`, or `-1`. -/
def lastIndexByte : GoString → Nat → Int
  | [], _ => -1
  | b :: rest, c =>
    let r := lastIndexByte rest c
    if r ≠ -1 then r + 1 else if b = c then 0 else -1

/-- Go `bytes.IndexByte(s, c)`: the index of the first occurrence of the byte
`c` in `s`, or `-1`. -/
def indexByte : GoString → Nat → Int
  | [], _ => -1
  | b :: rest, c =>
    if b = c then 0
    else
      let r := indexByte rest c
      if r ≠ -1 then r + 1 else -1

/-- Go `strings.HasPrefix(s, p)`: `len(s) >= len(p) && s[:len(p)] == p`. -/
def hasPrefix (s p : GoString) : Bool :=
  decide (p.length ≤ s.length ∧ s.take p.length = p)

/-- Go `strings.HasSuffix(s, p)`: `len(s) >= len(p) && s[len(s)-len(p):] == p`. -/
def hasSuffix (s p : GoString) : Bool :=
  decide (p.length ≤ s.length ∧ s.drop (s.length - p.length) = p)

/-- Go string comparison `a < b`: bytewise lexicographic, a proper prefix
being smaller. -/
def strLess : GoString → GoString → Bool
  | [], [] => false
  | [], _ :: _ => true
  | _ :: _, [] => false
  | a :: as, b :: bs => if a < b then true else if b < a then false else strLess as bs

/-! ## Data model -/

/-- Go `time.Time`, as nanoseconds since the zero time (never inspected). -/
abbrev Time := Int

/-- Source `type EventData struct`.  `Duration` is a `float64` read from JSON,
hence finite, hence a rational. -/
structure EventData where
  RelativePath : GoString
  FileSize : Int
  Duration : Rat
  FileOpenTime : Time
  FileCloseTime : Time
  SessionID : GoString
  RoomID : Int
  ShortID : Int
  Name : GoString
  Title : GoString
  AreaNameParent : GoString
  AreaNameChild : GoString

/-- Source `type RecEvent struct`. -/
structure RecEvent where
  EventType : GoString
  EventTimestamp : Time
  EventID : GoString
  EventData : EventData

/-- The zero value of `EventData`. -/
def EventData.zero : EventData :=
  { RelativePath := [], FileSize := 0, Duration := 0, FileOpenTime := 0, FileCloseTime := 0,
    SessionID := [], RoomID := 0, ShortID := 0, Name := [], Title := [],
    AreaNameParent := [], AreaNameChild := [] }

/-- The zero value of `RecEvent`: what `var e RecEvent` declares. -/
def RecEvent.zero : RecEvent :=
  { EventType := [], EventTimestamp := 0, EventID := [], EventData := EventData.zero }

/-- Source `type StatusData struct`. -/
structure StatusData where
  Running : Bool
  LastLog : GoString
  deriving DecidableEq

/-- An external command as built by `exec.Command` and `cmd.Env = append(...)`:
program name, the arguments after it, and the environment. -/
structure Cmd where
  name : GoString
  args : List GoString
  env : List GoString
  deriving DecidableEq

/-- The package-level variables set once in `main`: `*baseDir`, `*botAPI`,
`*logDir`. -/
structure Globals where
  baseDir : GoString
  botAPI : GoString
  logDir : GoString

/-- One observable side effect of the program. -/
inductive Effect where
  /-- `w.WriteHeader(code)` -/
  | writeHeader (code : Nat)
  /-- `w.Header().Set/Add(key, value)` -/
  | setHeader (key value : GoString)
  /-- `w.Write(body)` / `fmt.Fprintln(w, ...)` -/
  | write (body : GoString)
  /-- `w.Write(respBody)` where `respBody` is `json.Marshal(statusData)` -/
  | writeStatus (d : StatusData)
  /-- `log.Printf` / `log.Println`: the formatted message -/
  | log (msg : GoString)
  /-- `http.PostForm(api, url.Values{"roomid": {roomid}, "event": {event}})` -/
  | postForm (api roomid event : GoString)
  /-- `tranQue <- filename` -/
  | send (filename : GoString)
  /-- `cmd.Run()` -/
  | run (cmd : Cmd)
  /-- `os.Open(path.Join(dir, name))` -/
  | openFile (dir name : GoString)
  deriving DecidableEq

/-- What `json.NewDecoder(r.Body).Decode(&e)` leaves behind: the value of `e`
after the call (the zero value when the body is not syntactically JSON; the
fields that could be stored when a field has the wrong type, as
`encoding/json` skips such a field and goes on) and the returned error. -/
structure DecodeResult where
  event : RecEvent
  err : Option GoString

/-- An inbound `*http.Request`: its method and what decoding its body gives. -/
structure Request where
  Method : GoString
  Body : DecodeResult

/-- Go `http.MethodPost`. -/
def MethodPost : GoString := str "POST"
/-- Go `http.MethodGet`. -/
def MethodGet : GoString := str "GET"
/-- Go `http.StatusMethodNotAllowed`. -/
def StatusMethodNotAllowed : Nat := 405
/-- Go `http.StatusBadRequest`. -/
def StatusBadRequest : Nat := 400
/-- Go `http.StatusInternalServerError`. -/
def StatusInternalServerError : Nat := 500

/-- Go `http.Error(w, msg, code)`: sets the plain-text headers, writes the
status line and then the message followed by a newline. -/
def httpError (msg : GoString) (code : Nat) : List Effect :=
  [ Effect.setHeader (str "Content-Type") (str "text/plain; charset=utf-8"),
    Effect.setHeader (str "X-Content-Type-Options") (str "nosniff"),
    Effect.writeHeader code,
    Effect.write (msg ++ str "\n") ]

/-- The status code of the response a trace produces: the first
`WriteHeader` wins (later ones are ignored by `net/http`), and `200` is sent
when the handler never calls it. -/
def statusCode : List Effect → Nat
  | [] => 200
  | Effect.writeHeader c :: _ => c
  | _ :: rest => statusCode rest

/-! ## baseName -/

/-- Source `func baseName(fileName string) string`. -/
def baseName (fileName : GoString) : GoString :=
  let pos := lastIndexByte fileName 46
  if pos ≠ -1 then fileName.take pos.toNat else fileName

/-- Source, in `transcode`: `outputName := fmt.Sprintf("%v-hevc.mp4", baseName(filename))`. -/
def outputName (filename : GoString) : GoString :=
  baseName filename ++ str "-hevc.mp4"

/-! ## Notifier and event handler -/

/-- Source `func notifyRoomEvent(api string, roomID int, event string)`.
`postErr` is the error `http.PostForm` returns for the given form, if any. -/
def notifyRoomEvent (postErr : GoString → GoString → GoString → Option GoString)
    (api : GoString) (roomID : Int) (event : GoString) : List Effect :=
  Effect.postForm api (sprintInt roomID) event ::
    (match postErr api (sprintInt roomID) event with
     | some err => [Effect.log (str "Error: " ++ err ++ str ".")]
     | none => [])

/-- Source `func handler(w http.ResponseWriter, r *http.Request)`.  Neither
the method check nor the decode check returns: both fall through to the
`switch`. -/
def handler (g : Globals) (postErr : GoString → GoString → GoString → Option GoString)
    (r : Request) : List Effect :=
  let e := r.Body.event
  (if r.Method ≠ MethodPost then [Effect.writeHeader StatusMethodNotAllowed] else []) ++
  (match r.Body.err with
   | some _ => httpError (str "Cannot parse body") StatusBadRequest
   | none => []) ++
  (if e.EventType = str "SessionStarted" then
    Effect.log (str "<" ++ sprintInt e.EventData.RoomID ++ str "> online.") ::
      notifyRoomEvent postErr g.botAPI e.EventData.RoomID (str "ONLINE")
  else if e.EventType = str "FileOpening" then
    Effect.log (str "<" ++ sprintInt e.EventData.RoomID ++ str "> \"" ++ g.baseDir ++ str "/"
        ++ e.EventData.RelativePath ++ str "\" created.") ::
      notifyRoomEvent postErr g.botAPI e.EventData.RoomID (str "START")
  else if e.EventType = str "FileClosed" then
    let filename := g.baseDir ++ str "/" ++ e.EventData.RelativePath
    notifyRoomEvent postErr g.botAPI e.EventData.RoomID (str "STOP") ++
      [ Effect.log (str "<" ++ sprintInt e.EventData.RoomID ++ str "> \"" ++ filename
          ++ str "\" finished."),
        Effect.send filename ]
  else if e.EventType = str "SessionEnded" then
    Effect.log (str "<" ++ sprintInt e.EventData.RoomID ++ str "> offline.") ::
      notifyRoomEvent postErr g.botAPI e.EventData.RoomID (str "OFFLINE")
  else [])

/-- The notifications a trace sends: `(roomid, event)` of each `PostForm`, in order. -/
def notifications : List Effect → List (GoString × GoString)
  | [] => []
  | Effect.postForm _ roomid event :: rest => (roomid, event) :: notifications rest
  | _ :: rest => notifications rest

/-- The values a trace sends on `tranQue`, in order. -/
def admissions : List Effect → List GoString
  | [] => []
  | Effect.send filename :: rest => filename :: admissions rest
  | _ :: rest => admissions rest

/-! ## Transcode worker -/

/-- How one `cmd.Run()` ended. -/
inductive RunResult where
  /-- `err == nil` -/
  | success
  /-- the transcoder ran and exited with a non-zero status -/
  | exitError (code : Nat)
  /-- the transcoder could not be started -/
  | launchFailure (msg : GoString)

/-- The text of the error `cmd.Run()` returns, `none` for `nil`. -/
def RunResult.err : RunResult → Option GoString
  | RunResult.success => none
  | RunResult.exitError code => some (str "exit status " ++ str (toString code))
  | RunResult.launchFailure msg => some msg

/-- Source, in `transcode`: the command built for one `filename`. -/
def ffmpegCmd (g : Globals) (filename : GoString) : Cmd :=
  { name := str "ffmpeg",
    args := [ str "-nostdin",
              str "-loglevel", str "quiet",
              str "-i", filename,
              str "-c:v", str "libx265",
              str "-x265-params", str "log-level=none",
              str "-pix_fmt", str "yuv420p10le",
              str "-tag:v", str "hvc1",
              str "-max_muxing_queue_size", str "4096",
              str "-c:a", str "copy",
              outputName filename ],
    env := [ str "FFREPORT=file=" ++ g.baseDir ++ str "/ffmpeg-logs/%p-%t.log:level=32" ] }

/-- One iteration of the body of the `for` loop of `transcode`, for the value
`filename` received from `tranQue` and the outcome `res` of `cmd.Run()`. -/
def transcodeIter (g : Globals) (res : RunResult) (filename : GoString) : List Effect :=
  [ Effect.run (ffmpegCmd g filename),
    match res.err with
    | some err => Effect.log (str "Error: " ++ err)
    | none => Effect.log (str "Transcode finished: " ++ outputName filename) ]

/-- Source `func transcode()`: the worker loop, run on the values `tranQue`
delivers, in the order of delivery.  `outcome k` is how the `k`-th `cmd.Run()`
of the worker ends; `k` counts the iterations already done.  When the values
are used up the loop blocks on the receive, and the trace ends. -/
def transcodeFrom (g : Globals) (outcome : Nat → RunResult) : Nat → List GoString → List Effect
  | _, [] => []
  | k, filename :: rest =>
    transcodeIter g (outcome k) filename ++ transcodeFrom g outcome (k + 1) rest

/-- The worker started by `go transcode()`: it begins with no iteration done. -/
def transcode (g : Globals) (outcome : Nat → RunResult) (received : List GoString) : List Effect :=
  transcodeFrom g outcome 0 received

/-- The commands a trace runs, in order. -/
def invocations : List Effect → List Cmd
  | [] => []
  | Effect.run cmd :: rest => cmd :: invocations rest
  | _ :: rest => invocations rest

/-! ## Status probe -/

/-- Source, in `getStatus`: the initial value of `fileName`. -/
def sentinelName : GoString := str "bilirec19700101.txt"

/-- Source, in `getStatus`: the two `continue` filters of the loop over the
directory entries. -/
def isLogName (name : GoString) : Bool :=
  hasPrefix name (str "bilirec") && hasSuffix name (str ".txt")

/-- Source, in `getStatus`: one iteration of `for _, f := range files`, on the
entry name `name`, from the current value of `fileName`. -/
def selectStep (fileName name : GoString) : GoString :=
  if !hasPrefix name (str "bilirec") then fileName
  else if !hasSuffix name (str ".txt") then fileName
  else if strLess fileName name then name
  else fileName

/-- Source, in `getStatus`: the value of `fileName` after the loop over the
names of the directory entries. -/
def selectFileName (files : List GoString) : GoString :=
  files.foldl selectStep sentinelName

/-- Go `bufio.MaxScanTokenSize`: the largest buffer a `Scanner` grows to. -/
def maxScanTokenSize : Nat := 65536

/-- Go `bufio.dropCR`: drops one trailing `\r`. -/
def dropCR (data : GoString) : GoString :=
  if data.getLast? = some 13 then data.dropLast else data

/-- The tokens a `bufio.Scanner` with the default split function
`bufio.ScanLines` yields on the unread bytes `data`, until `Scan()` returns
false.  A line is cut at the first `\n`; a final line without `\n` is yielded
at end of input; a line that does not fit the buffer with its terminator
(`maxScanTokenSize` bytes) makes `Scan()` stop with `ErrTooLong`.  The first
argument bounds the number of tokens; each token consumes at least one byte. -/
def scanTokens : Nat → GoString → List GoString
  | 0, _ => []
  | fuel + 1, data =>
    if data = [] then []
    else
      let i := indexByte data 10
      if i ≠ -1 then
        if i.toNat < maxScanTokenSize then
          dropCR (data.take i.toNat) :: scanTokens fuel (data.drop (i.toNat + 1))
        else []
      else if data.length < maxScanTokenSize then [dropCR data]
      else []

/-- The tokens of a whole file. -/
def scanLines (content : GoString) : List GoString :=
  scanTokens content.length content

/-- Source, in `getStatus`: `var lastLog string; for scanner.Scan() { lastLog = scanner.Text() }`. -/
def lastLogOf (content : GoString) : GoString :=
  (scanLines content).foldl (fun _ text => text) []

/-- The regexp class `\s`: `[\t\n\f\r ]`. -/
def isSpace (b : Nat) : Bool := b = 9 || b = 10 || b = 12 || b = 13 || b = 32

/-- The regexp class `\d`: `[0-9]`. -/
def isDigit (b : Nat) : Bool := decide (48 ≤ b ∧ b ≤ 57)

/-- The regexp `.` (no `s` flag): anything but `\n`. -/
def isDot (b : Nat) : Bool := b ≠ 10

/-- The literal `"ProcessId":` of the pattern. -/
def pidKey : GoString := str "\"ProcessId\":"

/-- Matches the rest of the pattern after the literal, `\s*(\d+),.*}$`,
against `s`; gives the text of the capture group.  The greedy `\s*` and
`\d+` have one way to match: a shorter run is followed by a byte of the same
class, which neither `\d` nor `,` accepts. -/
def matchAfterKey (s : GoString) : Option GoString :=
  let s1 := s.dropWhile isSpace
  let digits := s1.takeWhile isDigit
  if digits = [] then none
  else
    match s1.dropWhile isDigit with
    | 44 :: s3 => if s3.all isDot && s3.getLast? = some 125 then some digits else none
    | _ => none

/-- Matches `.*"ProcessId":\s*(\d+),.*}$` against `s`, by backtracking in the
order of preference of the greedy `.*`: a longer `.*` is tried first. -/
def matchFromDot : GoString → Option GoString
  | [] => none
  | b :: rest =>
    match (if isDot b then matchFromDot rest else none) with
    | some digits => some digits
    | none =>
      if List.isPrefixOf pidKey (b :: rest) then matchAfterKey ((b :: rest).drop pidKey.length)
      else none

/-- Source, in `getStatus`: `regex.FindAllStringSubmatch(lastLog, -1)` for
`regex = ^{.*"ProcessId":\s*(\d+),.*}$`.  The pattern is anchored at both
ends, so there is at most one match, the whole line, with one capture group. -/
def findAllStringSubmatch (lastLog : GoString) : List (List GoString) :=
  match lastLog with
  | 123 :: rest =>
    (match matchFromDot rest with
     | some digits => [[lastLog, digits]]
     | none => [])
  | _ => []

/-- The value of a string of decimal digits, `none` when a byte is not a digit. -/
def parseDigits : GoString → Nat → Option Nat
  | [], acc => some acc
  | b :: rest, acc => if isDigit b then parseDigits rest (acc * 10 + (b - 48)) else none

/-- The text of the error `strconv.Atoi(s)` returns, for a reason `why`; the
quoting of `s` is that of a string of printable ASCII without quotes. -/
def atoiError (s why : GoString) : GoString :=
  str "strconv.Atoi: parsing \"" ++ s ++ str "\": " ++ why

/-- Go `strconv.Atoi(s)` on a 64-bit platform: an optional sign and decimal
digits; an error for a syntax error or a value outside `int`. -/
def atoi (s : GoString) : Except GoString Int :=
  let (neg, ds) : Bool × GoString :=
    match s with
    | 43 :: ds => (false, ds)
    | 45 :: ds => (true, ds)
    | ds => (false, ds)
  if ds = [] then Except.error (atoiError s (str "invalid syntax"))
  else
    match parseDigits ds 0 with
    | none => Except.error (atoiError s (str "invalid syntax"))
    | some n =>
      if neg then
        (if n ≤ 2 ^ 63 then Except.ok (-(n : Int))
         else Except.error (atoiError s (str "value out of range")))
      else
        (if n < 2 ^ 63 then Except.ok (n : Int)
         else Except.error (atoiError s (str "value out of range")))

/-- What `getStatus` reads from outside the program. -/
structure World where
  /-- `ioutil.ReadDir(dir)`: the error text, or the names of the entries -/
  readDir : GoString → Except GoString (List GoString)
  /-- `os.Open(path.Join(dir, name))`: the error text, or the bytes of the file -/
  openFile : GoString → GoString → Except GoString GoString
  /-- whether `process.Signal(syscall.Signal(0))` returns an error for the
  process found for `pid` -/
  signalErr : Int → Bool

/-- How a handler ends: it returns, or a run-time panic unwinds it. -/
inductive Ending where
  | returned
  | panicked (msg : GoString)
  deriving DecidableEq

/-- A run of a handler: its effects in order and how it ended. -/
structure Run where
  effects : List Effect
  ending : Ending
  deriving DecidableEq

/-- Source `func getStatus(w http.ResponseWriter, r *http.Request)`.
`res[0][1]` is evaluated without a check of `len(res)`: on an empty `res` the
Go run time panics with an index out of range.  On Unix `os.FindProcess`
always succeeds, so `running` is decided by `process.Signal` alone, and
`json.Marshal` cannot fail on a `StatusData`: those two error branches are
dead and left out. -/
def getStatus (g : Globals) (world : World) (method : GoString) : Run :=
  let pre : List Effect :=
    if method ≠ MethodGet then [Effect.writeHeader StatusMethodNotAllowed] else []
  match world.readDir g.logDir with
  | Except.error err =>
    ⟨pre ++ [Effect.log err, Effect.writeHeader StatusInternalServerError], Ending.returned⟩
  | Except.ok files =>
    let fileName := selectFileName files
    let opened := pre ++ [Effect.openFile g.logDir fileName]
    match world.openFile g.logDir fileName with
    | Except.error err =>
      ⟨opened ++ [Effect.log err, Effect.writeHeader StatusInternalServerError], Ending.returned⟩
    | Except.ok content =>
      let lastLog := lastLogOf content
      let res := findAllStringSubmatch lastLog
      match res with
      | [] => ⟨opened, Ending.panicked (str "runtime error: index out of range [0] with length 0")⟩
      | res0 :: _ =>
        match res0 with
        | _ :: group1 :: _ =>
          (match atoi group1 with
           | Except.error err =>
             ⟨opened ++ [Effect.log err, Effect.writeHeader StatusInternalServerError],
               Ending.returned⟩
           | Except.ok pid =>
             let running := !(world.signalErr pid)
             ⟨opened ++ [Effect.setHeader (str "Content-Type") (str "application/json"),
                 Effect.writeStatus { Running := running, LastLog := lastLog }],
               Ending.returned⟩)
        | _ => ⟨opened, Ending.panicked (str "runtime error: index out of range [1]")⟩

/-! ## Text lines, as the specification words them -/

/-- The pieces of a file between its `\n` bytes. -/
def splitNewline : GoString → List GoString
  | [] => [[]]
  | b :: rest =>
    if b = 10 then [] :: splitNewline rest
    else
      match splitNewline rest with
      | line :: more => (b :: line) :: more
      | [] => [[b]]

/-- The "final non-empty text line" of a file, in the words of the specification, the empty
string when the file has none. -/
def finalNonEmptyLine (content : GoString) : GoString :=
  (((splitNewline content).filter (fun line => line ≠ [])).getLast?).getD []

/-- The text lines of a file: the pieces between its `\n` bytes, without the
empty piece after a final `\n` (or of an empty file), each without one
trailing `\r`. -/
def textLines (content : GoString) : List GoString :=
  let pieces := splitNewline content
  (if pieces.getLast? = some [] then pieces.dropLast else pieces).map dropCR

/-- The "final `/`-separated component" of a path, in the words of the specification: what
follows its last `/` (the whole path when it has none). -/
def lastComponent (path : GoString) : GoString :=
  path.drop (lastIndexByte path 47 + 1).toNat

/-! ## Concrete inputs used below -/

/-- The globals as `main` sets them from the flag defaults. -/
def defaultGlobals : Globals :=
  { baseDir := str ".", botAPI := str "http://localhost:8888", logDir := str "." }

/-- A notification endpoint that always answers. -/
def postOk : GoString → GoString → GoString → Option GoString := fun _ _ _ => none

/-- A recorder event of the given type for room 100 and the file `rec/a.flv`. -/
def sampleEvent (eventType : GoString) : RecEvent :=
  { RecEvent.zero with
    EventType := eventType,
    EventData := { EventData.zero with RelativePath := str "rec/a.flv", RoomID := 100 } }

/-- A `FileClosed` event for room 100 whose recording `noext` has no extension. -/
def extensionlessEvent : RecEvent :=
  { RecEvent.zero with
    EventType := str "FileClosed",
    EventData := { EventData.zero with RelativePath := str "noext", RoomID := 100 } }

/-- What `Decode` leaves for the body
`{"EventType":"FileClosed","EventData":{"RelativePath":"a.flv","RoomId":"7"}}`:
`RoomId` is a JSON string where an `int` is expected, so that field is skipped
(it stays `0`), the other fields are stored, and an `UnmarshalTypeError` is
returned. -/
def wrongTypeBody : DecodeResult :=
  { event := { RecEvent.zero with
      EventType := str "FileClosed",
      EventData := { EventData.zero with RelativePath := str "a.flv" } },
    err := some (str "json: cannot unmarshal string into Go struct field of type int") }

/-- A log directory holding the single file `bilirec20230101.txt` with the
given bytes; every process id is alive. -/
def worldWithLog (content : GoString) : World :=
  { readDir := fun _ => Except.ok [str "bilirec20230101.txt"],
    openFile := fun _ name =>
      if name = str "bilirec20230101.txt" then Except.ok content
      else Except.error (str "no such file or directory"),
    signalErr := fun _ => false }

/-! ## Lemmas: traces -/

theorem notifications_append (xs ys : List Effect) :
    notifications (xs ++ ys) = notifications xs ++ notifications ys := by
  induction xs with
  | nil => rfl
  | cons x xs ih => cases x <;> simp [notifications, ih]

theorem admissions_append (xs ys : List Effect) :
    admissions (xs ++ ys) = admissions xs ++ admissions ys := by
  induction xs with
  | nil => rfl
  | cons x xs ih => cases x <;> simp [admissions, ih]

theorem invocations_append (xs ys : List Effect) :
    invocations (xs ++ ys) = invocations xs ++ invocations ys := by
  induction xs with
  | nil => rfl
  | cons x xs ih => cases x <;> simp [invocations, ih]

theorem notifications_log_cons (msg : GoString) (xs : List Effect) :
    notifications (Effect.log msg :: xs) = notifications xs := rfl

theorem admissions_log_cons (msg : GoString) (xs : List Effect) :
    admissions (Effect.log msg :: xs) = admissions xs := rfl

theorem notifications_notifyRoomEvent (postErr : GoString → GoString → GoString → Option GoString)
    (api : GoString) (roomID : Int) (event : GoString) :
    notifications (notifyRoomEvent postErr api roomID event) = [(sprintInt roomID, event)] := by
  unfold notifyRoomEvent
  cases postErr api (sprintInt roomID) event <;> rfl

theorem admissions_notifyRoomEvent (postErr : GoString → GoString → GoString → Option GoString)
    (api : GoString) (roomID : Int) (event : GoString) :
    admissions (notifyRoomEvent postErr api roomID event) = [] := by
  unfold notifyRoomEvent
  cases postErr api (sprintInt roomID) event <;> rfl

/-! ## Lemmas: baseName -/

theorem lastIndexByte_of_not_mem (s : GoString) (c : Nat) (h : c ∉ s) :
    lastIndexByte s c = -1 := by
  induction s with
  | nil => rfl
  | cons b rest ih =>
    have hb : ¬ b = c := fun e => h (by simp [e])
    have hr : c ∉ rest := fun m => h (List.mem_cons_of_mem _ m)
    simp [lastIndexByte, ih hr, hb]

theorem lastIndexByte_append_sep (s ext : GoString) (c : Nat) (h : c ∉ ext) :
    lastIndexByte (s ++ c :: ext) c = (s.length : Int) := by
  induction s with
  | nil => simp [lastIndexByte, lastIndexByte_of_not_mem ext c h]
  | cons b rest ih =>
    have hne : ¬ ((rest.length : Int) = -1) := by omega
    show (if lastIndexByte (rest ++ c :: ext) c ≠ -1 then lastIndexByte (rest ++ c :: ext) c + 1
      else if b = c then 0 else -1) = ((b :: rest).length : Int)
    rw [ih, if_pos hne]
    simp

theorem baseName_append_sep (s ext : GoString) (h : 46 ∉ ext) :
    baseName (s ++ 46 :: ext) = s := by
  have hne : ((s.length : Int) = -1) = False := by
    apply eq_false
    omega
  simp [baseName, lastIndexByte_append_sep s ext 46 h, hne]

theorem baseName_of_no_dot (path : GoString) (h : 46 ∉ path) : baseName path = path := by
  simp [baseName, lastIndexByte_of_not_mem path 46 h]

/-! ## Event dispatch -/

/-- C1: for a POST request whose body decodes without error to an event of
type `FileClosed`, `handler` sends exactly one notification, `STOP` for the
room of the event, and sends exactly one value on `tranQue`, the base directory,
a `/` and the relative path of the event. -/
theorem handler_fileClosed (g : Globals)
    (postErr : GoString → GoString → GoString → Option GoString) (e : RecEvent)
    (h : e.EventType = str "FileClosed") :
    notifications (handler g postErr ⟨MethodPost, ⟨e, none⟩⟩)
        = [(sprintInt e.EventData.RoomID, str "STOP")] ∧
      admissions (handler g postErr ⟨MethodPost, ⟨e, none⟩⟩)
        = [g.baseDir ++ str "/" ++ e.EventData.RelativePath] := by
  have h1 : ¬ str "FileClosed" = str "SessionStarted" := by decide
  have h2 : ¬ str "FileClosed" = str "FileOpening" := by decide
  simp only [handler, h, h1, h2, ne_eq, not_true_eq_false, if_false, if_true, List.nil_append,
    notifications_append, admissions_append, notifications_notifyRoomEvent,
    admissions_notifyRoomEvent]
  exact ⟨rfl, rfl⟩

/-- C1 at a `FileClosed` event for room 100 and `rec/a.flv`, base directory `.`. -/
theorem handler_fileClosed_witness :
    notifications (handler defaultGlobals postOk ⟨MethodPost, ⟨sampleEvent (str "FileClosed"), none⟩⟩)
        = [(str "100", str "STOP")] ∧
      admissions (handler defaultGlobals postOk ⟨MethodPost, ⟨sampleEvent (str "FileClosed"), none⟩⟩)
        = [str "./rec/a.flv"] :=
  handler_fileClosed defaultGlobals postOk (sampleEvent (str "FileClosed")) rfl

/-- C2: for a POST request whose body decodes without error to an event
whose type is not `FileClosed`, `handler` sends nothing on `tranQue`, and its
notifications are those of the mapping table for the room of the event: one
`ONLINE` for `SessionStarted`, one `START` for `FileOpening`, one `OFFLINE`
for `SessionEnded`, none for any other type. -/
theorem handler_not_fileClosed (g : Globals)
    (postErr : GoString → GoString → GoString → Option GoString) (e : RecEvent)
    (h : e.EventType ≠ str "FileClosed") :
    admissions (handler g postErr ⟨MethodPost, ⟨e, none⟩⟩) = [] ∧
      notifications (handler g postErr ⟨MethodPost, ⟨e, none⟩⟩)
        = (if e.EventType = str "SessionStarted" then [(sprintInt e.EventData.RoomID, str "ONLINE")]
           else if e.EventType = str "FileOpening" then [(sprintInt e.EventData.RoomID, str "START")]
           else if e.EventType = str "SessionEnded" then [(sprintInt e.EventData.RoomID, str "OFFLINE")]
           else []) := by
  simp only [handler, ne_eq, not_true_eq_false, if_false, List.nil_append]
  by_cases c1 : e.EventType = str "SessionStarted"
  · simp only [if_pos c1, notifications_log_cons, admissions_log_cons,
      notifications_notifyRoomEvent, admissions_notifyRoomEvent, and_self]
  · by_cases c2 : e.EventType = str "FileOpening"
    · simp only [if_neg c1, if_pos c2, notifications_log_cons, admissions_log_cons,
        notifications_notifyRoomEvent, admissions_notifyRoomEvent, and_self]
    · by_cases c4 : e.EventType = str "SessionEnded"
      · simp only [if_neg c1, if_neg c2, if_neg h, if_pos c4, notifications_log_cons,
          admissions_log_cons, notifications_notifyRoomEvent, admissions_notifyRoomEvent,
          and_self]
      · simp only [if_neg c1, if_neg c2, if_neg h, if_neg c4, notifications, admissions,
          and_self]

/-- C2 at a `SessionStarted` event for room 100. -/
theorem handler_not_fileClosed_witness :
    admissions (handler defaultGlobals postOk ⟨MethodPost, ⟨sampleEvent (str "SessionStarted"), none⟩⟩)
        = [] ∧
      notifications (handler defaultGlobals postOk ⟨MethodPost, ⟨sampleEvent (str "SessionStarted"), none⟩⟩)
        = [(str "100", str "ONLINE")] :=
  handler_not_fileClosed defaultGlobals postOk (sampleEvent (str "SessionStarted")) (by decide)

/-- C6: a POST request whose body has a field of the wrong type: `handler`
answers 400 and yet, as it does not return after the decode error, sends the
`STOP` notification and sends the file name on `tranQue`. -/
theorem handler_decode_error_falls_through :
    wrongTypeBody.err ≠ none ∧
      statusCode (handler defaultGlobals postOk ⟨MethodPost, wrongTypeBody⟩) = 400 ∧
      notifications (handler defaultGlobals postOk ⟨MethodPost, wrongTypeBody⟩)
        = [(str "0", str "STOP")] ∧
      admissions (handler defaultGlobals postOk ⟨MethodPost, wrongTypeBody⟩)
        = [str "./a.flv"] := by
  decide

/-- When the body is not syntactically JSON, `e` stays the zero value: a POST
request is answered 400, no case of the `switch` matches, and nothing is
notified or queued. -/
theorem handler_syntax_error (g : Globals)
    (postErr : GoString → GoString → GoString → Option GoString) (err : GoString) :
    statusCode (handler g postErr ⟨MethodPost, ⟨RecEvent.zero, some err⟩⟩) = 400 ∧
      notifications (handler g postErr ⟨MethodPost, ⟨RecEvent.zero, some err⟩⟩) = [] ∧
      admissions (handler g postErr ⟨MethodPost, ⟨RecEvent.zero, some err⟩⟩) = [] := by
  have h1 : ¬ RecEvent.zero.EventType = str "SessionStarted" := by decide
  have h2 : ¬ RecEvent.zero.EventType = str "FileOpening" := by decide
  have h3 : ¬ RecEvent.zero.EventType = str "FileClosed" := by decide
  have h4 : ¬ RecEvent.zero.EventType = str "SessionEnded" := by decide
  simp only [handler, ne_eq, not_true_eq_false, if_false, List.nil_append, if_neg h1, if_neg h2,
    if_neg h3, if_neg h4, List.append_nil]
  exact ⟨rfl, rfl, rfl⟩

/-- C7: a GET request whose body is a well-formed `FileClosed` event:
`handler` answers 405 and yet, as it does not return after the method check,
sends the `STOP` notification and sends the file name on `tranQue`. -/
theorem handler_wrong_method_falls_through :
    MethodGet ≠ MethodPost ∧
      statusCode (handler defaultGlobals postOk ⟨MethodGet, ⟨sampleEvent (str "FileClosed"), none⟩⟩)
        = 405 ∧
      notifications (handler defaultGlobals postOk ⟨MethodGet, ⟨sampleEvent (str "FileClosed"), none⟩⟩)
        = [(str "100", str "STOP")] ∧
      admissions (handler defaultGlobals postOk ⟨MethodGet, ⟨sampleEvent (str "FileClosed"), none⟩⟩)
        = [str "./rec/a.flv"] := by
  decide

/-! ## Output name -/

/-- C3: for every string `s` and every extension `ext` without a `.`, the
output name derived for `s ++ "." ++ ext` is `s ++ "-hevc.mp4"`; in particular
`a/b/test.flv` gives `a/b/test-hevc.mp4` and `/usr/local/test.flv` gives
`/usr/local/test-hevc.mp4`. -/
theorem outputName_strips_last_extension (s ext : GoString) (h : 46 ∉ ext) :
    outputName (s ++ str "." ++ ext) = s ++ str "-hevc.mp4" ∧
      outputName (str "a/b/test.flv") = str "a/b/test-hevc.mp4" ∧
      outputName (str "/usr/local/test.flv") = str "/usr/local/test-hevc.mp4" := by
  refine ⟨?_, by decide, by decide⟩
  have hdot : str "." = [46] := by decide
  rw [hdot, List.append_assoc, List.singleton_append]
  unfold outputName
  rw [baseName_append_sep s ext h]

/-- C3 at `dir/a.tar.gz`: only `.gz` is stripped. -/
theorem outputName_strips_last_extension_witness :
    46 ∉ str "gz" ∧
      outputName (str "dir/a.tar" ++ str "." ++ str "gz") = str "dir/a.tar" ++ str "-hevc.mp4" :=
  ⟨by decide, (outputName_strips_last_extension (str "dir/a.tar") (str "gz") (by decide)).1⟩

/-- C4: the final component of `./noext` has no `.`, and the derived output
name is `-hevc.mp4`, not `./noext-hevc.mp4`: `baseName` cuts at the `.` of the
directory part and its fallback `return fileName` is not reached.  With the
default base directory `.`, `handler` queues `./noext` for a closed file
`noext`, and the worker then runs the transcoder with `-hevc.mp4` as its
output argument. -/
theorem outputName_dot_in_directory :
    46 ∉ lastComponent (str "./noext") ∧
      baseName (str "./noext") = str "" ∧
      outputName (str "./noext") = str "-hevc.mp4" ∧
      outputName (str "./noext") ≠ str "./noext" ++ str "-hevc.mp4" ∧
      admissions (handler defaultGlobals postOk ⟨MethodPost, ⟨extensionlessEvent, none⟩⟩)
        = [str "./noext"] ∧
      (invocations (transcode defaultGlobals (fun _ => RunResult.success) [str "./noext"])).map
          (fun cmd => cmd.args.getLast?)
        = [some (str "-hevc.mp4")] := by
  decide

/-- Where `baseName` does reach its fallback: for every path that contains no
`.` at all, the derived output name is the path followed by `-hevc.mp4`, as it
is for `noext`. -/
theorem outputName_of_no_dot (path : GoString) (h : 46 ∉ path) :
    outputName path = path ++ str "-hevc.mp4" ∧
      outputName (str "noext") = str "noext-hevc.mp4" := by
  refine ⟨?_, by decide⟩
  unfold outputName
  rw [baseName_of_no_dot path h]

/-- The dot-free path `rec/noext` keeps its whole name. -/
theorem outputName_of_no_dot_witness :
    46 ∉ str "rec/noext" ∧ outputName (str "rec/noext") = str "rec/noext" ++ str "-hevc.mp4" :=
  ⟨by decide, (outputName_of_no_dot (str "rec/noext") (by decide)).1⟩

/-! ## Transcode worker -/

theorem invocations_transcodeFrom (g : Globals) (outcome : Nat → RunResult)
    (received : List GoString) (k : Nat) :
    invocations (transcodeFrom g outcome k received) = received.map (ffmpegCmd g) := by
  induction received generalizing k with
  | nil => rfl
  | cons filename rest ih =>
    simp only [transcodeFrom, invocations_append, ih, List.map_cons]
    unfold transcodeIter
    cases (outcome k).err <;> rfl

theorem admissions_transcodeFrom (g : Globals) (outcome : Nat → RunResult)
    (received : List GoString) (k : Nat) :
    admissions (transcodeFrom g outcome k received) = [] := by
  induction received generalizing k with
  | nil => rfl
  | cons filename rest ih =>
    simp only [transcodeFrom, admissions_append, ih, List.append_nil]
    unfold transcodeIter
    cases (outcome k).err <;> rfl

/-- C5: for every sequence of paths the worker receives and every outcome of
every run, the commands the worker runs are, in the order of reception, one
`ffmpeg` command per path, with the path after `-i` and
`baseName(path) ++ "-hevc.mp4"` as the output argument; the worker sends
nothing back on `tranQue`. -/
theorem transcode_runs_each_path_once_in_order (g : Globals) (outcome : Nat → RunResult)
    (received : List GoString) :
    invocations (transcode g outcome received)
        = received.map (fun path =>
            { name := str "ffmpeg",
              args := [ str "-nostdin", str "-loglevel", str "quiet", str "-i", path,
                        str "-c:v", str "libx265", str "-x265-params", str "log-level=none",
                        str "-pix_fmt", str "yuv420p10le", str "-tag:v", str "hvc1",
                        str "-max_muxing_queue_size", str "4096", str "-c:a", str "copy",
                        baseName path ++ str "-hevc.mp4" ],
              env := [ str "FFREPORT=file=" ++ g.baseDir
                        ++ str "/ffmpeg-logs/%p-%t.log:level=32" ] }) ∧
      admissions (transcode g outcome received) = [] := by
  unfold transcode
  rw [invocations_transcodeFrom, admissions_transcodeFrom]
  exact ⟨rfl, rfl⟩

/-! ## Status probe: the unchecked index -/

/-- Whenever the last line of the opened log file does not match the pattern,
`getStatus` panics at `res[0][1]` and writes no status line. -/
theorem getStatus_panics_of_no_match (g : Globals) (world : World) (files : List GoString)
    (content : GoString)
    (hdir : world.readDir g.logDir = Except.ok files)
    (hopen : world.openFile g.logDir (selectFileName files) = Except.ok content)
    (hres : findAllStringSubmatch (lastLogOf content) = []) :
    getStatus g world MethodGet
      = ⟨[Effect.openFile g.logDir (selectFileName files)],
          Ending.panicked (str "runtime error: index out of range [0] with length 0")⟩ := by
  have hm : ¬ (MethodGet ≠ MethodGet) := by simp
  simp only [getStatus, hdir, hopen, hres, if_neg hm, List.nil_append]

/-- C9: on a log file that is empty, and on one whose last line is `hello`,
the last line does not match the pattern and `getStatus` evaluates `res[0][1]`
on the empty `res`: the handler panics, and no server-error status is written. -/
theorem getStatus_empty_or_unmatched_last_line_panics :
    findAllStringSubmatch (lastLogOf (str "")) = [] ∧
      (getStatus defaultGlobals (worldWithLog (str "")) MethodGet).ending
        = Ending.panicked (str "runtime error: index out of range [0] with length 0") ∧
      Effect.writeHeader StatusInternalServerError
        ∉ (getStatus defaultGlobals (worldWithLog (str "")) MethodGet).effects ∧
      findAllStringSubmatch (lastLogOf (str "started\nhello\n")) = [] ∧
      (getStatus defaultGlobals (worldWithLog (str "started\nhello\n")) MethodGet).ending
        = Ending.panicked (str "runtime error: index out of range [0] with length 0") ∧
      Effect.writeHeader StatusInternalServerError
        ∉ (getStatus defaultGlobals (worldWithLog (str "started\nhello\n")) MethodGet).effects := by
  decide

/-- A last line that matches the pattern is answered with a status report:
the probe of a log ending in `{"ProcessId": 4242, "foo":"bar"}` reports the
process as running. -/
theorem getStatus_matching_last_line :
    getStatus defaultGlobals (worldWithLog (str "x\n\x7b\"ProcessId\": 4242, \"foo\":\"bar\"\x7d\n")) MethodGet
      = ⟨[ Effect.openFile (str ".") (str "bilirec20230101.txt"),
           Effect.setHeader (str "Content-Type") (str "application/json"),
           Effect.writeStatus
             { Running := true, LastLog := str "\x7b\"ProcessId\": 4242, \"foo\":\"bar\"\x7d" } ],
          Ending.returned⟩ := by
  decide

/-! ## Status probe: latest-log discovery -/

theorem strLess_irrefl (a : GoString) : strLess a a = false := by
  induction a with
  | nil => rfl
  | cons x xs ih => simp [strLess, ih]

theorem strLess_trans : ∀ (a b c : GoString),
    strLess a b = true → strLess b c = true → strLess a c = true
  | [], [], _, h, _ => by simp [strLess] at h
  | [], _ :: _, [], _, h => by simp [strLess] at h
  | [], _ :: _, _ :: _, _, _ => by simp [strLess]
  | _ :: _, [], _, h, _ => by simp [strLess] at h
  | _ :: _, _ :: _, [], _, h => by simp [strLess] at h
  | x :: xs, y :: ys, z :: zs, h1, h2 => by
    simp only [strLess] at h1 h2 ⊢
    split_ifs at h1 h2 ⊢ <;>
      first
        | rfl
        | omega
        | exact absurd h1 (by decide)
        | exact absurd h2 (by decide)
        | exact strLess_trans xs ys zs h1 h2

theorem strLess_antisymm : ∀ (a b : GoString),
    strLess a b = false → strLess b a = false → a = b
  | [], [], _, _ => rfl
  | [], _ :: _, h, _ => by simp [strLess] at h
  | _ :: _, [], _, h => by simp [strLess] at h
  | x :: xs, y :: ys, h1, h2 => by
    simp only [strLess] at h1 h2
    split_ifs at h1 h2
    have hxy : x = y := by omega
    rw [hxy, strLess_antisymm xs ys h1 h2]

theorem strLess_false_trans (a b c : GoString)
    (h1 : strLess a b = false) (h2 : strLess b c = false) : strLess a c = false := by
  cases hac : strLess a c with
  | false => rfl
  | true =>
    cases hcb : strLess c b with
    | true => rw [strLess_trans a c b hac hcb] at h1; exact absurd h1 (by decide)
    | false =>
      have hbc : b = c := strLess_antisymm b c h2 hcb
      rw [hbc, hac] at h1
      exact absurd h1 (by decide)

theorem selectStep_eq (fileName name : GoString) :
    selectStep fileName name
      = if isLogName name = true ∧ strLess fileName name = true then name else fileName := by
  unfold selectStep isLogName
  cases hasPrefix name (str "bilirec") <;> cases hasSuffix name (str ".txt") <;>
    cases strLess fileName name <;> simp

theorem foldl_selectStep (files : List GoString) (init : GoString) :
    (files.foldl selectStep init = init ∨
        (files.foldl selectStep init ∈ files ∧ isLogName (files.foldl selectStep init) = true)) ∧
      strLess (files.foldl selectStep init) init = false ∧
      ∀ n ∈ files, isLogName n = true → strLess (files.foldl selectStep init) n = false := by
  induction files generalizing init with
  | nil => simp [strLess_irrefl]
  | cons m rest ih =>
    obtain ⟨hsel, hge, hall⟩ := ih (selectStep init m)
    simp only [List.foldl_cons]
    by_cases hm : isLogName m = true ∧ strLess init m = true
    · have hstep : selectStep init m = m := by rw [selectStep_eq, if_pos hm]
      rw [hstep] at hsel hge hall ⊢
      refine ⟨Or.inr ?_, ?_, ?_⟩
      · rcases hsel with h | ⟨h1, h2⟩
        · rw [h]; exact ⟨List.mem_cons_self _ _, hm.1⟩
        · exact ⟨List.mem_cons_of_mem _ h1, h2⟩
      · cases hri : strLess (List.foldl selectStep m rest) init with
        | false => rfl
        | true =>
          rw [strLess_trans _ _ _ hri hm.2] at hge
          exact absurd hge (by decide)
      · intro n hn hlog
        rcases List.mem_cons.mp hn with h | h
        · rw [h]; exact hge
        · exact hall n h hlog
    · have hstep : selectStep init m = init := by rw [selectStep_eq, if_neg hm]
      rw [hstep] at hsel hge hall ⊢
      refine ⟨?_, hge, ?_⟩
      · rcases hsel with h | ⟨h1, h2⟩
        · exact Or.inl h
        · exact Or.inr ⟨List.mem_cons_of_mem _ h1, h2⟩
      · intro n hn hlog
        rcases List.mem_cons.mp hn with h | h
        · rw [h]
          cases him : strLess init m with
          | false => exact strLess_false_trans _ _ _ hge him
          | true => exact absurd ⟨h ▸ hlog, him⟩ hm
        · exact hall n h hlog

theorem getStatus_opens_selected (g : Globals) (world : World) (files : List GoString)
    (hdir : world.readDir g.logDir = Except.ok files) :
    Effect.openFile g.logDir (selectFileName files) ∈ (getStatus g world MethodGet).effects := by
  have hm : ¬ (MethodGet ≠ MethodGet) := by simp
  simp only [getStatus, hdir, if_neg hm, List.nil_append]
  split
  · simp
  · split
    · simp
    · split
      · split <;> simp
      · simp

/-- C8, as stated, fails: the listing `bilirec.txt` holds a name that begins
with `bilirec` and ends with `.txt`, and the name selected and opened is the
sentinel `bilirec19700101.txt`, which is not in the listing. -/
theorem selectFileName_sentinel_selected :
    isLogName (str "bilirec.txt") = true ∧
      selectFileName [str "bilirec.txt"] = str "bilirec19700101.txt" ∧
      selectFileName [str "bilirec.txt"] ∉ [str "bilirec.txt"] ∧
      Effect.openFile (str ".") (str "bilirec19700101.txt") ∈
        (getStatus defaultGlobals
          { worldWithLog (str "") with readDir := fun _ => Except.ok [str "bilirec.txt"] }
          MethodGet).effects := by
  decide

/-- C8, amended: for every listing of the log directory that holds a name
beginning with `bilirec` and ending with `.txt` that is not smaller than the
sentinel `bilirec19700101.txt`, the name `getStatus` selects and opens is a
name of the listing, begins with `bilirec`, ends with `.txt`, and no such name
of the listing is greater. -/
theorem selectFileName_greatest (g : Globals) (world : World) (files : List GoString)
    (hdir : world.readDir g.logDir = Except.ok files)
    (h : ∃ n ∈ files, isLogName n = true ∧ strLess n sentinelName = false) :
    selectFileName files ∈ files ∧
      isLogName (selectFileName files) = true ∧
      (∀ n ∈ files, isLogName n = true → strLess (selectFileName files) n = false) ∧
      Effect.openFile g.logDir (selectFileName files) ∈ (getStatus g world MethodGet).effects := by
  obtain ⟨hsel, hge, hall⟩ := foldl_selectStep files sentinelName
  obtain ⟨n, hn, hlog, hnlt⟩ := h
  have hmem : selectFileName files ∈ files ∧ isLogName (selectFileName files) = true := by
    rcases hsel with hs | hs
    · have hsn : strLess sentinelName n = false := by
        have := hall n hn hlog
        rw [hs] at this
        exact this
      have heq : n = sentinelName := strLess_antisymm n sentinelName hnlt hsn
      unfold selectFileName
      rw [hs, ← heq]
      exact ⟨hn, hlog⟩
    · exact hs
  exact ⟨hmem.1, hmem.2, hall, getStatus_opens_selected g world files hdir⟩

/-- C8, amended, at the listing of the specification. -/
theorem selectFileName_greatest_witness :
    selectFileName [str "bilirec20230101.txt", str "bilirec20230215.txt", str "other.txt"]
        = str "bilirec20230215.txt" ∧
      selectFileName [str "bilirec20230101.txt", str "bilirec20230215.txt", str "other.txt"]
        ∈ [str "bilirec20230101.txt", str "bilirec20230215.txt", str "other.txt"] :=
  ⟨by decide,
    (selectFileName_greatest defaultGlobals
      { worldWithLog (str "") with
        readDir := fun _ =>
          Except.ok [str "bilirec20230101.txt", str "bilirec20230215.txt", str "other.txt"] }
      [str "bilirec20230101.txt", str "bilirec20230215.txt", str "other.txt"] rfl
      ⟨str "bilirec20230101.txt", by decide, by decide, by decide⟩).1⟩

/-! ## Status probe: tail read -/

theorem indexByte_of_not_mem (s : GoString) (c : Nat) (h : c ∉ s) : indexByte s c = -1 := by
  induction s with
  | nil => rfl
  | cons b rest ih =>
    have hb : ¬ b = c := fun e => h (by simp [e])
    have hr : c ∉ rest := fun m => h (List.mem_cons_of_mem _ m)
    simp [indexByte, ih hr, hb]

theorem indexByte_nonneg_of_mem (s : GoString) (c : Nat) (h : c ∈ s) : 0 ≤ indexByte s c := by
  induction s with
  | nil => exact absurd h (List.not_mem_nil c)
  | cons b rest ih =>
    by_cases hb : b = c
    · simp [indexByte, hb]
    · have hr : c ∈ rest := by
        rcases List.mem_cons.mp h with e | e
        · exact absurd e.symm hb
        · exact e
      have := ih hr
      have hne : indexByte rest c ≠ -1 := by omega
      simp only [indexByte, if_neg hb, if_pos hne]
      omega

theorem indexByte_split (s : GoString) (c : Nat) (h : indexByte s c ≠ -1) :
    ∃ a b, s = a ++ c :: b ∧ c ∉ a ∧ indexByte s c = (a.length : Int) := by
  induction s with
  | nil => exact absurd rfl h
  | cons x rest ih =>
    by_cases hx : x = c
    · refine ⟨[], rest, by simp [hx], by simp, ?_⟩
      simp [indexByte, hx]
    · have hstep : indexByte (x :: rest) c
          = if indexByte rest c ≠ -1 then indexByte rest c + 1 else -1 := by
        simp [indexByte, hx]
      by_cases hr : indexByte rest c ≠ -1
      · obtain ⟨a, b, hs, hna, hlen⟩ := ih hr
        refine ⟨x :: a, b, by simp [hs], ?_, ?_⟩
        · intro hmem
          rcases List.mem_cons.mp hmem with e | e
          · exact hx e.symm
          · exact hna e
        · rw [hstep, if_pos hr, hlen]
          simp
      · rw [hstep, if_neg hr] at h
        exact absurd rfl h

theorem splitNewline_ne_nil (s : GoString) : splitNewline s ≠ [] := by
  induction s with
  | nil => simp [splitNewline]
  | cons b rest ih =>
    unfold splitNewline
    split_ifs
    · simp
    · split <;> simp

theorem splitNewline_of_not_mem (s : GoString) (h : 10 ∉ s) : splitNewline s = [s] := by
  induction s with
  | nil => rfl
  | cons b rest ih =>
    have hb : ¬ b = 10 := fun e => h (by simp [e])
    have hr : 10 ∉ rest := fun m => h (List.mem_cons_of_mem _ m)
    simp [splitNewline, hb, ih hr]

theorem splitNewline_append (a b : GoString) (h : 10 ∉ a) :
    splitNewline (a ++ 10 :: b) = a :: splitNewline b := by
  induction a with
  | nil => simp [splitNewline]
  | cons x rest ih =>
    have hx : ¬ x = 10 := fun e => h (by simp [e])
    have hr : 10 ∉ rest := fun m => h (List.mem_cons_of_mem _ m)
    simp [splitNewline, hx, ih hr]

theorem textLines_nil : textLines [] = [] := by decide

theorem textLines_of_not_mem (s : GoString) (hs : s ≠ []) (h : 10 ∉ s) :
    textLines s = [dropCR s] := by
  simp [textLines, splitNewline_of_not_mem s h, hs]

theorem textLines_append (a b : GoString) (h : 10 ∉ a) :
    textLines (a ++ 10 :: b) = dropCR a :: textLines b := by
  unfold textLines
  rw [splitNewline_append a b h]
  cases hp : splitNewline b with
  | nil => exact absurd hp (splitNewline_ne_nil b)
  | cons p ps =>
    simp only [List.getLast?_cons_cons, List.dropLast_cons₂]
    split_ifs <;> simp

theorem scanTokens_eq_textLines (fuel : Nat) (data : GoString)
    (hf : data.length ≤ fuel)
    (hl : ∀ line ∈ splitNewline data, line.length < maxScanTokenSize) :
    scanTokens fuel data = textLines data := by
  induction fuel generalizing data with
  | zero =>
    have hd : data = [] := List.length_eq_zero.mp (Nat.le_zero.mp hf)
    rw [hd, textLines_nil]
    rfl
  | succ fuel ih =>
    unfold scanTokens
    by_cases hd : data = []
    · rw [if_pos hd, hd, textLines_nil]
    · rw [if_neg hd]
      by_cases hi : indexByte data 10 ≠ -1
      · obtain ⟨a, b, hs, hna, hlen⟩ := indexByte_split data 10 hi
        have ha : a.length < maxScanTokenSize :=
          hl a (by rw [hs, splitNewline_append a b hna]; exact List.mem_cons_self _ _)
        have hb : ∀ line ∈ splitNewline b, line.length < maxScanTokenSize := fun line hm =>
          hl line (by rw [hs, splitNewline_append a b hna]; exact List.mem_cons_of_mem _ hm)
        have hfb : b.length ≤ fuel := by
          have : data.length = a.length + (b.length + 1) := by rw [hs]; simp
          omega
        have htake : (a ++ 10 :: b).take a.length = a := by simp
        have hdrop : (a ++ 10 :: b).drop (a.length + 1) = b := by
          rw [List.drop_append]
          rfl
        have hne : ((a.length : Int) ≠ -1) := by omega
        simp only [hlen, Int.toNat_ofNat]
        rw [if_pos hne, if_pos ha, hs, textLines_append a b hna, htake, hdrop, ih b hfb hb]
      · have hi2 : indexByte data 10 = -1 := not_not.mp hi
        have hnm : 10 ∉ data := fun hmem => by
          have := indexByte_nonneg_of_mem data 10 hmem
          omega
        have hlen : data.length < maxScanTokenSize :=
          hl data (by rw [splitNewline_of_not_mem data hnm]; exact List.mem_cons_self _ _)
        rw [if_neg hi, if_pos hlen, textLines_of_not_mem data hd hnm]

theorem foldl_keep_last (tokens : List GoString) (init : GoString) :
    tokens.foldl (fun _ text => text) init = (tokens.getLast?).getD init := by
  induction tokens generalizing init with
  | nil => rfl
  | cons t rest ih =>
    rw [List.foldl_cons, ih t]
    cases rest with
    | nil => rfl
    | cons r rest2 =>
      rw [List.getLast?_cons_cons]
      cases hlast : (r :: rest2).getLast? with
      | none => simp at hlast
      | some v => rfl

/-- C10, as stated, fails: in the file `a`, newline, newline, a blank line
follows the final non-empty line `a`, and the last line recorded is the empty
string. -/
theorem lastLogOf_blank_last_line :
    finalNonEmptyLine (str "a\n\n") = str "a" ∧
      lastLogOf (str "a\n\n") = str "" ∧
      lastLogOf (str "a\n\n") ≠ finalNonEmptyLine (str "a\n\n") := by
  decide

/-- C10, amended: for every content of the selected log file whose lines are
each shorter than 65536 bytes, the last line `getStatus` records is the final
text line of the file, empty or not (the empty string when the file has no
line); for the empty file it is the empty string. -/
theorem lastLogOf_eq_final_text_line (content : GoString)
    (h : ∀ line ∈ splitNewline content, line.length < maxScanTokenSize) :
    lastLogOf content = ((textLines content).getLast?).getD [] ∧ lastLogOf (str "") = str "" := by
  refine ⟨?_, by decide⟩
  unfold lastLogOf scanLines
  rw [scanTokens_eq_textLines content.length content (Nat.le_refl _) h, foldl_keep_last]

/-- C10, amended, at a file of two lines, the first ended by a carriage return and a newline. -/
theorem lastLogOf_eq_final_text_line_witness :
    (∀ line ∈ splitNewline (str "a\r\nbc\n"), line.length < maxScanTokenSize) ∧
      textLines (str "a\r\nbc\n") = [str "a", str "bc"] ∧
      lastLogOf (str "a\r\nbc\n") = ((textLines (str "a\r\nbc\n")).getLast?).getD [] :=
  ⟨by decide, by decide, (lastLogOf_eq_final_text_line (str "a\r\nbc\n") (by decide)).1⟩

end BiliverecHooks
